import Mathlib

/-!
Verification development for the ipsotek event pipeline
(`backend/firebase_client.py`, `backend/processing_pipeline.py`,
`backend/notifications.py`, `backend/event_statistics.py`).

The Python modules are shallowly embedded: dictionaries become association
lists over a `Value` type, the Firestore collection becomes an association
list from document keys to documents, and every external effect (HTTP image
fetch, blob upload, PIL decode/encode, Firestore batch commit outcome) is a
parameter of the pipeline, bundled in a `World` record.  Machine floats in
the Python source only ever carry numeric coordinates; they are modelled as
rationals.
-/

namespace Ipsotek

/-- A Firestore-representable Python value: strings, numbers (modelled as
rationals), booleans, `None`, `datetime` values (abstracted to a natural
timestamp), lists and string-keyed dicts.  The model only covers values the
Python code can actually persist; arbitrary non-serialisable Python objects
are outside the model (see `isFirestoreCompatible`). -/
inductive Value where
  | str : String → Value
  | num : ℚ → Value
  | bool : Bool → Value
  | null : Value
  | time : ℕ → Value
  | list : List Value → Value
  | dict : List (String × Value) → Value

/-- Python truthiness of a `Value` (`if image_position:` etc.). -/
def truthy : Value → Bool
  | .str s => s ≠ ""
  | .num q => q ≠ 0
  | .bool b => b
  | .null => false
  | .time _ => true
  | .list xs => !xs.isEmpty
  | .dict kvs => !kvs.isEmpty

mutual
/-- Embedding of `SimpleFirebaseClient._is_firestore_compatible`. -/
def isFirestoreCompatible : Value → Bool
  | .str _ => true
  | .num _ => true
  | .bool _ => true
  | .null => true
  | .time _ => true
  | .list xs => listCompatible xs
  | .dict kvs => dictCompatible kvs

/-- `all(... for item in value)` over a list value. -/
def listCompatible : List Value → Bool
  | [] => true
  | x :: xs => isFirestoreCompatible x && listCompatible xs

/-- `all(... for v in value.values())` over a dict value. -/
def dictCompatible : List (String × Value) → Bool
  | [] => true
  | kv :: kvs => isFirestoreCompatible kv.2 && dictCompatible kvs
end


/-- Look up a key in a Python-dict-as-association-list (first match). -/
def lookupKey {α : Type} : List (String × α) → String → Option α
  | [], _ => none
  | kv :: rest, k => if kv.1 = k then some kv.2 else lookupKey rest k

/-- Python dict assignment `m[k] = v`: replace the binding if the key is
present, otherwise append it (insertion order preserved, as in CPython). -/
def setKey {α : Type} : List (String × α) → String → α → List (String × α)
  | [], k, v => [(k, v)]
  | kv :: rest, k, v => if kv.1 = k then (k, v) :: rest else kv :: setKey rest k v

/-- The keys of a dict, in order. -/
def keysOf {α : Type} (m : List (String × α)) : List String := m.map Prod.fst

/-- A raw Elasticsearch hit as the pipeline sees it: `_index`, `_id` (absent
keys modelled as `none`) and the `_source` field map. -/
structure SrcDoc where
  index? : Option String
  id? : Option String
  source : List (String × Value)

/-- A document stored in Firestore. -/
abbrev FsDoc := List (String × Value)

/-- The Firestore collection: document key → document. -/
abbrev Store := List (String × FsDoc)

/-- The keys (document ids) currently present in the collection. -/
def storeKeys (st : Store) : List String := keysOf st

/-- `doc_id = f"{doc.get('_index', 'unknown')}_{doc.get('_id', 'unknown')}"`
from `store_documents_batch`. -/
def docKeyOf (d : SrcDoc) : String :=
  d.index?.getD "unknown" ++ "_" ++ d.id?.getD "unknown"

/-- Embedding of `_prepare_document_for_firestore`: stamp `created_at`,
`updated_at` and `status = "Pending"` onto the source fields.  The
serialisation loop is the identity on this model's values
(`isFirestoreCompatible_eq_true`). -/
def prepare_document_for_firestore (ts : ℕ) (doc_data : List (String × Value)) :
    List (String × Value) :=
  setKey (setKey (setKey doc_data "created_at" (.time ts)) "updated_at" (.time ts))
    "status" (.str "Pending")

/-- The full document written for one hit: prepared source fields plus the
`source_index` / `source_id` provenance fields (`store_documents_batch`,
lines 298–302). -/
def prepareStored (ts : ℕ) (d : SrcDoc) : FsDoc :=
  setKey (setKey (prepare_document_for_firestore ts d.source)
      "source_index" (.str (d.index?.getD "unknown")))
    "source_id" (.str (d.id?.getD "unknown"))

/-- `documents[i:i + batch_size]` chunking of `store_documents_batch`'s
`for i in range(0, total_documents, batch_size)` loop (faithful for
`batchSize ≥ 1`; the `batchSize = 0` case is guarded off in
`store_documents_batch` itself, where Python's `range` would raise). -/
def chunkList {α : Type} (bs : ℕ) : List α → List (List α)
  | [] => []
  | x :: xs => (x :: xs.take (bs - 1)) :: chunkList bs (xs.drop (bs - 1))
termination_by l => l.length
decreasing_by simp [List.length_drop]; omega

/-- One Firestore batched write: `batch.set(doc_ref, firestore_data)` for
each document of the chunk, committed atomically. -/
def applyChunk (st : Store) (ts : ℕ) (chunk : List SrcDoc) : Store :=
  chunk.foldl (fun acc d => setKey acc (docKeyOf d) (prepareStored ts d)) st

/-- Embedding of `SimpleFirebaseClient.store_documents_batch`.  `commitFail n`
says whether the `batch.commit()` of inner batch number `n` (1-based, as in
the Python `batch_num`) raises; a failed batch is logged and skipped
(`continue`), contributing 0 to `successful_stores`.  Returns the updated
collection and `successful_stores`.  `batchSize = 0` models the `range`
step-0 `ValueError`, caught by the outer handler which returns 0. -/
def store_documents_batch (commitFail : ℕ → Bool) (batchSize ts : ℕ)
    (documents : List SrcDoc) (st : Store) : Store × ℕ :=
  if batchSize = 0 then (st, 0)
  else
    (chunkList batchSize documents).enum.foldl
      (fun acc nc =>
        if commitFail (nc.1 + 1) then acc
        else (applyChunk acc.1 ts nc.2, acc.2 + nc.2.length))
      (st, 0)

/-! ### BBOX string parsing (`parse_bbox_coordinates`) -/

/-- The whitespace class of Python's regex `\s` and of `str.strip()`
(ASCII part). -/
def isPySpace (c : Char) : Bool :=
  c = ' ' ∨ c = '\t' ∨ c = '\n' ∨ c = '\r' ∨ c = '\x0b' ∨ c = '\x0c'

/-- Python `str.strip()` on a character list. -/
def pyStrip (cs : List Char) : List Char :=
  ((cs.dropWhile isPySpace).reverse.dropWhile isPySpace).reverse

/-- Python `str.split(sep)` for a one-character separator, keeping empty
pieces (`",,".split(",") == ["", "", ""]`). -/
def splitOnChar (sep : Char) : List Char → List (List Char)
  | [] => [[]]
  | c :: cs =>
    if c = sep then [] :: splitOnChar sep cs
    else
      match splitOnChar sep cs with
      | [] => [[c]]
      | p :: ps => (c :: p) :: ps

/-- ASCII uppercasing of one character (`str.upper` restricted to ASCII,
which covers every string the code compares against). -/
def asciiUpper (c : Char) : Char :=
  if 'a' ≤ c ∧ c ≤ 'z' then Char.ofNat (c.toNat - 32) else c

/-- ASCII lowercasing of one character (`str.lower` restricted to ASCII). -/
def asciiLower (c : Char) : Char :=
  if 'A' ≤ c ∧ c ≤ 'Z' then Char.ofNat (c.toNat + 32) else c

/-- Python's substring test `pat in s` on character lists. -/
def containsSeq (pat : List Char) : List Char → Bool
  | [] => pat.isEmpty
  | c :: cs => pat.isPrefixOf (c :: cs) || containsSeq pat cs

/-- Try the tail of the regex `BBOX\s*\(([^)]+)\)` (after the literal
`BBOX`): greedy whitespace, `(`, a nonempty run of non-`)` characters, `)`.
Returns the captured group.  Greediness is deterministic here because the
character after `\s*` must be `(` and the run `[^)]+` is delimited by the
first `)`. -/
def matchAfterBBOX (cs : List Char) : Option (List Char) :=
  match cs.dropWhile isPySpace with
  | '(' :: cs2 =>
    let inner := cs2.takeWhile (fun c => c ≠ ')')
    match inner, cs2.dropWhile (fun c => c ≠ ')') with
    | [], _ => none
    | _, ')' :: _ => some inner
    | _, _ => none
  | _ => none

/-- Match the full pattern `BBOX\s*\(([^)]+)\)` at the head of `cs`. -/
def matchBBOX (cs : List Char) : Option (List Char) :=
  match cs with
  | 'B' :: 'B' :: 'O' :: 'X' :: rest => matchAfterBBOX rest
  | _ => none

/-- `re.search` of the pattern: try every start position left to right. -/
def searchBBOX : List Char → Option (List Char)
  | [] => none
  | c :: cs =>
    match matchBBOX (c :: cs) with
    | some inner => some inner
    | none => searchBBOX cs

/-- Digits to a natural number. -/
def digitsToNat (ds : List Char) : ℕ :=
  ds.foldl (fun n c => 10 * n + (c.toNat - '0'.toNat)) 0

/-- Python `float(s)` on an already-stripped string, restricted to finite
decimal literals (optional sign, digits with an optional fraction part,
optional exponent).  `inf`/`nan` literals and underscore separators are not
modelled; the coordinates handled by the pipeline are plain decimals. -/
def parseFloatChars (cs : List Char) : Option ℚ :=
  let (sgn, cs) : ℚ × List Char :=
    match cs with
    | '+' :: rest => (1, rest)
    | '-' :: rest => (-1, rest)
    | rest => (1, rest)
  let intDigits := cs.takeWhile Char.isDigit
  let cs1 := cs.dropWhile Char.isDigit
  let (fracDigits, cs2) : List Char × List Char :=
    match cs1 with
    | '.' :: rest => (rest.takeWhile Char.isDigit, rest.dropWhile Char.isDigit)
    | _ => ([], cs1)
  if intDigits.isEmpty && fracDigits.isEmpty then none
  else
    let mantissa : ℚ :=
      sgn * ((digitsToNat intDigits : ℚ) + (digitsToNat fracDigits : ℚ) / 10 ^ fracDigits.length)
    match cs2 with
    | [] => some mantissa
    | 'e' :: rest | 'E' :: rest =>
      let (esgn, rest) : ℤ × List Char :=
        match rest with
        | '+' :: r => (1, r)
        | '-' :: r => (-1, r)
        | r => (1, r)
      let eDigits := rest.takeWhile Char.isDigit
      if eDigits.isEmpty || !(rest.dropWhile Char.isDigit).isEmpty then none
      else some (mantissa * (10 : ℚ) ^ (esgn * (digitsToNat eDigits : ℤ)))
    | _ => none

/-- `float(x.strip())` for one comma-separated coordinate. -/
def parseFloat? (cs : List Char) : Option ℚ := parseFloatChars (pyStrip cs)

/-- Embedding of `SimpleFirebaseClient.parse_bbox_coordinates`: regex-search
`BBOX\s*\(([^)]+)\)` on the stripped input, split the capture on commas,
convert each piece with `float`, and require exactly four coordinates.  Any
conversion failure (caught exception) or wrong arity yields `None`. -/
def parse_bbox_coordinates (bbox_string : String) : Option (ℚ × ℚ × ℚ × ℚ) :=
  match searchBBOX (pyStrip bbox_string.data) with
  | none => none
  | some inner =>
    match (splitOnChar ',' inner).mapM (fun x => parseFloat? x) with
    | none => none
    | some coords =>
      match coords with
      | [x1, y1, x2, y2] => some (x1, y1, x2, y2)
      | _ => none

/-! ### Image annotation (`draw_rectangle_on_image`, `process_image_with_bbox`) -/

/-- Raw image/HTTP bytes. -/
abbrev ByteStr := List ℕ

/-- The coordinate adjustment of `draw_rectangle_on_image` (lines 112–126):
clamp each coordinate into the image bounds, then force a minimum 10-unit
extent on any axis whose clamped extent is zero or negative. -/
def adjustCoords (coords : ℚ × ℚ × ℚ × ℚ) (imgWidth imgHeight : ℚ) : ℚ × ℚ × ℚ × ℚ :=
  let x1 := max 0 (min coords.1 imgWidth)
  let y1 := max 0 (min coords.2.1 imgHeight)
  let x2 := max 0 (min coords.2.2.1 imgWidth)
  let y2 := max 0 (min coords.2.2.2 imgHeight)
  let x2 := if x2 ≤ x1 then x1 + 10 else x2
  let y2 := if y2 ≤ y1 then y1 + 10 else y2
  (x1, y1, x2, y2)

/-- Result of one `session.get` image request: either a raised `requests`
exception, or an HTTP response with status code and body. -/
inductive FetchRes where
  | raises : FetchRes
  | resp : ℕ → ByteStr → FetchRes
deriving DecidableEq

/-- Result dict of `upload_image_bytes`: `{}` when the upload failed, or the
bucket/path/URL dictionary. -/
inductive UploadMeta where
  | empty : UploadMeta
  | ok : String → String → String → String → UploadMeta

/-- `upload_meta.get("media_url_with_token") or upload_meta.get("media_url")`
guarded by `if upload_meta:` in the pipeline (Python `or` picks the first
truthy string). -/
def chosenUrl : UploadMeta → Option String
  | .empty => none
  | .ok _ _ media_url media_url_with_token =>
    if media_url_with_token ≠ "" then some media_url_with_token
    else if media_url ≠ "" then some media_url
    else none

/-- The external world of the pipeline: image fetches (by index, id and
whether the `.ds-` alternate URL form is used), blob upload, PIL decoding
(image dimensions, `none` when `Image.open` raises), rectangle drawing plus
JPEG re-encoding, the storage destination path (prefix and date
abstracted), and the per-call Firestore `batch.commit()` failure oracle
(store call number, inner batch number). -/
structure World where
  fetch : String → String → Bool → FetchRes
  upload : ByteStr → String → UploadMeta
  decode : ByteStr → Option (ℚ × ℚ)
  drawEnc : ByteStr → ℚ × ℚ × ℚ × ℚ → ByteStr
  destPath : String → String → String
  commitFail : ℕ → ℕ → Bool

/-- Embedding of `draw_rectangle_on_image`: decode the image, adjust the
box with `adjustCoords`, draw and re-encode; any decoding error is caught
and the original bytes are returned. -/
def draw_rectangle_on_image (w : World) (image_bytes : ByteStr)
    (bbox_coords : ℚ × ℚ × ℚ × ℚ) : ByteStr :=
  match w.decode image_bytes with
  | none => image_bytes
  | some (iw, ih) => w.drawEnc image_bytes (adjustCoords bbox_coords iw ih)

/-- Embedding of `process_image_with_bbox`: draw the parsed BBOX rectangle
when `image_position` is truthy and mentions `BBOX` (case-insensitively),
fall back to the original bytes when parsing fails, then upload.  Returns
the bytes passed to the upload together with the upload result. -/
def process_image_with_bbox (w : World) (image_bytes : ByteStr)
    (image_position : Option String) (destination_path : String) :
    ByteStr × UploadMeta :=
  let processed_bytes :=
    match image_position with
    | some pos =>
      if pos ≠ "" ∧ containsSeq "BBOX".data (pos.data.map asciiUpper) then
        match parse_bbox_coordinates pos with
        | some bbox_coords => draw_rectangle_on_image w image_bytes bbox_coords
        | none => image_bytes
      else image_bytes
    | none => image_bytes
  (processed_bytes, w.upload processed_bytes destination_path)

/-! ### The incremental enrichment-and-commit pipeline
(`_process_and_attach_images_with_incremental_commit`) -/

/-- The `if image_position and "BBOX" in image_position.upper():` logging
guard of the pipeline (line 275), evaluated on the raw `_source` value:
truthy non-strings raise `AttributeError` on `.upper()` (an error inside
the per-record `try`), strings pass through, and falsy values
short-circuit — a falsy non-string behaves exactly like a missing value in
`process_image_with_bbox`, whose own guard is also short-circuited. -/
def ipCheck : Option Value → Except Unit (Option String)
  | none => .ok none
  | some v =>
    if truthy v then
      match v with
      | .str s => .ok (some s)
      | _ => .error ()
    else
      match v with
      | .str s => .ok (some s)
      | _ => .ok none

/-- The image fetch of the per-record block (pipeline lines 258–264): a
primary GET, retried once against the `.ds-` alternate URL form on a 404.
`none` means a `requests` exception was raised (caught by the per-record
handler, which skips the record); `some (status, body)` is the last HTTP
response. -/
def fetchWithRetry (w : World) (index_name source_id : String) : Option (ℕ × ByteStr) :=
  match w.fetch index_name source_id false with
  | .raises => none
  | .resp st content =>
    if st = 404 then
      match w.fetch index_name source_id true with
      | .raises => none
      | .resp st2 c2 => some (st2, c2)
    else some (st, content)

/-- One iteration of the pipeline's per-record `try`: returns the record as
staged (possibly enriched with `image_url`), or `none` when the record is
skipped — unresolvable identity (`continue`) or a raised exception caught
by the per-record handler. -/
def stageOf (w : World) (d : SrcDoc) : Option SrcDoc :=
  let index_name := d.index?.getD ""
  let source_id := d.id?.getD ""
  if index_name = "" ∨ source_id = "" then none
  else
    match fetchWithRetry w index_name source_id with
    | none => none
    | some (st, content) =>
      if st = 200 ∧ content ≠ [] then
        match ipCheck (lookupKey d.source "image_position") with
        | .error _ => none
        | .ok ipos =>
          let res := process_image_with_bbox w content ipos
            (w.destPath index_name source_id)
          match chosenUrl res.2 with
          | some url => some { d with source := setKey d.source "image_url" (.str url) }
          | none => some d
      else some d

/-- Observable pipeline events: a Firestore commit (staged size, committed
count), a notification fanout (`_send_batch_notification`), and a
statistics refresh (`_update_event_statistics`). -/
inductive Ev where
  | commit : ℕ → ℕ → Ev
  | notify : ℕ → ℕ → Ev
  | statsRefresh : Ev
deriving DecidableEq

/-- The loop state of `_process_and_attach_images_with_incremental_commit`
plus the event trace. -/
structure PipeState where
  store : Store
  staged : List SrcDoc
  total_committed : ℕ
  batch_number : ℕ
  store_calls : ℕ
  trace : List Ev

/-- Initial loop state over a given Firestore collection. -/
def initPipeState (st : Store) : PipeState :=
  { store := st, staged := [], total_committed := 0, batch_number := 0,
    store_calls := 0, trace := [] }

/-- The commit block of the pipeline (lines 302–312 and 318–326): persist
the staged list, add the committed count, and — only when the committed
count is nonzero — bump the batch number, send the batch notification and
refresh the statistics.  The staged list is cleared afterwards. -/
def commitStaged (w : World) (cfgBs ts : ℕ) (s : PipeState) : PipeState :=
  let res := store_documents_batch (fun n => w.commitFail s.store_calls n) cfgBs ts s.staged s.store
  let s' : PipeState :=
    { s with
      store := res.1,
      total_committed := s.total_committed + res.2,
      store_calls := s.store_calls + 1,
      staged := [],
      trace := s.trace ++ [.commit s.staged.length res.2] }
  if 0 < res.2 then
    { s' with
      batch_number := s.batch_number + 1,
      trace := s'.trace ++ [.notify res.2 (s.batch_number + 1)] ++ [.statsRefresh] }
  else s'

/-- One iteration of the pipeline's `for doc in documents:` loop: stage the
record unless it is skipped, and commit once the staged list reaches
`max(1, batch_size)`. -/
def pipeStep (w : World) (cfgBs ts : ℕ) (s : PipeState) (d : SrcDoc) : PipeState :=
  match stageOf w d with
  | none => s
  | some d' =>
    let s := { s with staged := s.staged ++ [d'] }
    if max 1 cfgBs ≤ s.staged.length then commitStaged w cfgBs ts s else s

/-- Embedding of `_process_and_attach_images_with_incremental_commit`:
fold the per-record step over the documents, then commit the leftover
staged records (lines 317–326). -/
def processIncremental (w : World) (cfgBs ts : ℕ) (documents : List SrcDoc)
    (st : Store) : PipeState :=
  let s := documents.foldl (pipeStep w cfgBs ts) (initPipeState st)
  if s.staged.isEmpty then s else commitStaged w cfgBs ts s

/-! ### The run driver (`process_recent_data`) -/

/-- The pipeline's `self.stats` bookkeeping (timestamps abstracted to a
flag). -/
structure RunStats where
  total_processed : ℕ
  total_successful : ℕ
  total_failed : ℕ
  last_error : Option String
  has_last_run : Bool

/-- Embedding of `SimpleDataPipeline.process_recent_data` after the
Elasticsearch query (the fetched-and-limited documents are a parameter):
if no documents were found, return 0 untouched; otherwise obtain the image
bearer token — a token failure is caught, logged and yields a stored count
of 0 with the pipeline never invoked — then run the incremental pipeline,
and account the run as successful or failed depending on whether anything
was stored.  Returns the stored count, the pipeline effects and the
updated stats. -/
def process_recent_data (w : World) (tokenRes : Except Unit String) (cfgBs ts : ℕ)
    (documents : List SrcDoc) (st : Store) (stats0 : RunStats) :
    ℕ × PipeState × RunStats :=
  if documents.isEmpty then (0, initPipeState st, stats0)
  else
    let ps :=
      match tokenRes with
      | .error _ => initPipeState st
      | .ok _ => processIncremental w cfgBs ts documents st
    let stored_count :=
      match tokenRes with
      | .error _ => 0
      | .ok _ => ps.total_committed
    let stats1 := { stats0 with total_processed := stats0.total_processed + 1 }
    let stats2 :=
      if 0 < stored_count then
        { stats1 with
          total_successful := stats1.total_successful + 1,
          last_error := none }
      else
        { stats1 with
          total_failed := stats1.total_failed + 1,
          last_error := some "Failed to store documents" }
    (stored_count, ps, { stats2 with has_last_run := true })

/-! ### Notifications (`backend/notifications.py`) -/

mutual
/-- Structural equality of values, used for the optional `where_equal`
Firestore filters. -/
def valueBeq : Value → Value → Bool
  | .str a, .str b => a == b
  | .num a, .num b => a == b
  | .bool a, .bool b => a == b
  | .null, .null => true
  | .time a, .time b => a == b
  | .list as, .list bs => valueListBeq as bs
  | .dict as, .dict bs => valueDictBeq as bs
  | _, _ => false

/-- Pointwise `valueBeq` on list values. -/
def valueListBeq : List Value → List Value → Bool
  | [], [] => true
  | a :: as, b :: bs => valueBeq a b && valueListBeq as bs
  | _, _ => false

/-- Pointwise `valueBeq` on dict values. -/
def valueDictBeq : List (String × Value) → List (String × Value) → Bool
  | [], [] => true
  | a :: as, b :: bs => (a.1 == b.1) && valueBeq a.2 b.2 && valueDictBeq as bs
  | _, _ => false
end

/-- `list(dict.fromkeys(tokens))`: deduplicate keeping the first occurrence
of each token, preserving order. -/
def dedupFirst (l : List String) : List String :=
  go [] l
where
  /-- Accumulates the set of tokens already seen. -/
  go (seen : List String) : List String → List String
    | [] => []
    | x :: xs => if x ∈ seen then go seen xs else x :: go (x :: seen) xs

/-- Embedding of `NotificationService.get_responder_tokens`: query the
`responders` collection (given here as the list of responder documents),
keep only `status == "online"` ones when `online_only`, apply the optional
equality filters and limit, extract nonempty stripped `notification_token`
strings, and deduplicate them. -/
def get_responder_tokens (responders : List FsDoc)
    (where_equal : List (String × Value)) (limit : Option ℤ)
    (online_only : Bool) : List String :=
  let q1 := if online_only then
      responders.filter (fun r =>
        match lookupKey r "status" with
        | some (Value.str s) => s == "online"
        | _ => false)
    else responders
  let q2 := q1.filter (fun r =>
    where_equal.all (fun kv =>
      match lookupKey r kv.1 with
      | some v => valueBeq v kv.2
      | none => false))
  let q3 := match limit with
    | some n => if 0 < n then q2.take n.toNat else q2
    | none => q2
  let tokens := q3.filterMap (fun r =>
    match lookupKey r "notification_token" with
    | some (Value.str t) =>
      if (pyStrip t.data).isEmpty then none else some (String.mk (pyStrip t.data))
    | _ => none)
  dedupFirst tokens

/-- The result dictionary of the notification entry points, keeping the
keys the claims are about: the two counters, whether a `responses` list is
present, and the value of an `error` key if one was set. -/
structure NotifResult where
  success_count : ℕ
  failure_count : ℕ
  has_responses : Bool
  error : Option String
deriving DecidableEq

/-- Embedding of `NotificationService.send_notification_to_tokens` with the
per-token FCM send as an oracle (`ok message_id` / `error detail`): filter
valid tokens, send to each, and count successes and failures.  Also returns
the list of tokens a send was attempted for.  The invalid-token cleanup
side effect is not modelled (it touches no state the claims mention). -/
def send_notification_to_tokens (send : String → Except String String)
    (tokens : List String) : NotifResult × List String :=
  let valid_tokens := tokens.filter (fun t => !(pyStrip t.data).isEmpty)
  if valid_tokens.isEmpty then
    ({ success_count := 0, failure_count := 0, has_responses := true, error := none }, [])
  else
    let counts := valid_tokens.foldl
      (fun (c : ℕ × ℕ) t =>
        match send t with
        | .ok _ => (c.1 + 1, c.2)
        | .error _ => (c.1, c.2 + 1))
      (0, 0)
    ({ success_count := counts.1, failure_count := counts.2,
       has_responses := true, error := none }, valid_tokens)

/-- Embedding of `NotificationService.send_notification_to_responders`:
fetch the (online) responder tokens; when there are none, return the
zero-count result `{"success_count": 0, "failure_count": 0, "responses":
[]}` without attempting any send; otherwise send in sub-batches of
`max(1, batch_size)` and aggregate the counts.  The second component
collects every token a send was attempted for. -/
def send_notification_to_responders (send : String → Except String String)
    (responders : List FsDoc) (where_equal : List (String × Value))
    (online_only : Bool) (batch_size : ℕ) : NotifResult × List String :=
  let all_tokens := get_responder_tokens responders where_equal none online_only
  if all_tokens.isEmpty then
    ({ success_count := 0, failure_count := 0, has_responses := true, error := none }, [])
  else
    (chunkList (max 1 batch_size) all_tokens).foldl
      (fun acc chunk =>
        let res := send_notification_to_tokens send chunk
        ({ success_count := acc.1.success_count + res.1.success_count,
           failure_count := acc.1.failure_count + res.1.failure_count,
           has_responses := true, error := none }, acc.2 ++ res.2))
      ({ success_count := 0, failure_count := 0, has_responses := true, error := none }, [])

/-! ### Event statistics (`backend/event_statistics.py`) -/

/-- The counters of `calculate_event_statistics` (the `last_updated` and
`date_filter` entries of the Python dict are metadata, but their KEYS still
take part in the `if status in stats:` membership test, see `bumpStatus`). -/
structure EventStats where
  total : ℕ
  pending : ℕ
  accepted : ℕ
  rejected : ℕ
  done : ℕ
deriving DecidableEq

/-- `data.get('status', 'pending').lower()`: a missing status defaults to
`"pending"`; a non-string status raises (`AttributeError` on `.lower()`),
which the outer handler turns into an empty result. -/
def statusLower (doc : FsDoc) : Except Unit String :=
  match lookupKey doc "status" with
  | none => .ok "pending"
  | some (.str s) => .ok (String.mk (s.data.map asciiLower))
  | some _ => .error ()

/-- `if status in stats: stats[status] += 1 else: stats['pending'] += 1`.
The membership test is against ALL keys of the stats dict — including
`total`, `last_updated` and `date_filter`.  A document whose lowered status
is `"total"` therefore increments the `total` counter a second time instead
of folding into `pending`; statuses `"last_updated"` or `"date_filter"`
attempt `+= 1` on a datetime or string, raising `TypeError`. -/
def bumpStatus (s : EventStats) (status : String) : Except Unit EventStats :=
  if status ∈ ["total", "pending", "accepted", "rejected", "done",
      "last_updated", "date_filter"] then
    match status with
    | "total" => .ok { s with total := s.total + 1 }
    | "pending" => .ok { s with pending := s.pending + 1 }
    | "accepted" => .ok { s with accepted := s.accepted + 1 }
    | "rejected" => .ok { s with rejected := s.rejected + 1 }
    | "done" => .ok { s with done := s.done + 1 }
    | _ => .error ()
  else .ok { s with pending := s.pending + 1 }

/-- The counting loop of `calculate_event_statistics`. -/
def calcStatsGo : List FsDoc → EventStats → Except Unit EventStats
  | [], s => .ok s
  | d :: ds, s =>
    let s := { s with total := s.total + 1 }
    match statusLower d with
    | .error e => .error e
    | .ok st =>
      match bumpStatus s st with
      | .error e => .error e
      | .ok s' => calcStatsGo ds s'

/-- Embedding of `EventStatisticsService.calculate_event_statistics` over
the scanned event documents (the Firestore stream and optional date filter
are abstracted to the given list): count every document into `total` and
one status bucket via `bumpStatus`; any raised exception is caught by the
outer handler, which returns `{}` (modelled as `none`). -/
def calculate_event_statistics (docs : List FsDoc) : Option EventStats :=
  match calcStatsGo docs { total := 0, pending := 0, accepted := 0, rejected := 0, done := 0 } with
  | .ok s => some s
  | .error _ => none

/-! ### Derived definitions used by the theorems -/

/-- The property of a stored document the status claims are about: its
`status` field is the string `"Pending"`. -/
def hasPending (fs : FsDoc) : Prop := lookupKey fs "status" = some (Value.str "Pending")

/-- The sequence of atomic chunk writes performed by a fully successful
`store_documents_batch` run. -/
def applyChunks (st : Store) (ts : ℕ) (cs : List (List SrcDoc)) : Store :=
  cs.foldl (fun acc c => applyChunk acc ts c) st

/-- Number of successful commits among store calls `0 .. i-1` for a per-call
failure oracle `g`. -/
def succUpTo (g : ℕ → Bool) (i : ℕ) : ℕ :=
  ((List.range i).filter (fun j => !g j)).length

/-- The events produced by the `i`-th (0-based) store call of the pipeline
on a full staged batch of size `bs`: a commit, followed — only on success —
by a notification (with batch number = successful calls so far) and a
statistics refresh. -/
def callBlock (g : ℕ → Bool) (bs i : ℕ) : List Ev :=
  if g i then [.commit bs 0]
  else [.commit bs bs, .notify bs (succUpTo g i + 1), .statsRefresh]

/-- The event trace after `q` in-loop store calls. -/
def loopTrace (g : ℕ → Bool) (bs q : ℕ) : List Ev :=
  ((List.range q).map (callBlock g bs)).flatten

/-- The loop invariant of `_process_and_attach_images_with_incremental_commit`
after `k` records have been staged: the staged list holds the last
`k % bs` records, and the store calls, batch numbers, committed total and
trace are determined by `k / bs` and the per-call failure oracle. -/
def PipeInv (w : World) (bs k : ℕ) (s : PipeState) : Prop :=
  s.staged.length = k % bs ∧
  s.store_calls = k / bs ∧
  s.batch_number = succUpTo (fun i => w.commitFail i 1) (k / bs) ∧
  s.total_committed = bs * succUpTo (fun i => w.commitFail i 1) (k / bs) ∧
  s.trace = loopTrace (fun i => w.commitFail i 1) bs (k / bs)


/-- A benign concrete world used by the witnesses: every image fetch
returns HTTP 200 with a one-byte body, uploads fail benignly (empty result
dict, so no `image_url` is attached), image decoding raises (so original
bytes are kept) and no Firestore commit ever fails. -/
def wOk : World where
  fetch := fun _ _ _ => .resp 200 [1]
  upload := fun _ _ => .empty
  decode := fun _ => none
  drawEnc := fun b _ => b
  destPath := fun i j => i ++ "_" ++ j
  commitFail := fun _ _ => false

/-- A concrete world whose image fetch raises a `requests` exception. -/
def wRaise : World where
  fetch := fun _ _ _ => .raises
  upload := fun _ _ => .empty
  decode := fun _ => none
  drawEnc := fun b _ => b
  destPath := fun i j => i ++ "_" ++ j
  commitFail := fun _ _ => false

/-- A concrete world in which the commit of the pipeline's second store
call (0-based call index 1) raises and every other commit succeeds. -/
def wFail2 : World where
  fetch := fun _ _ _ => .resp 200 [1]
  upload := fun _ _ => .empty
  decode := fun _ => none
  drawEnc := fun b _ => b
  destPath := fun i j => i ++ "_" ++ j
  commitFail := fun i _ => i == 1

/-- The concrete source record used by the witnesses. -/
def dOk : SrcDoc := { index? := some "camera", id? := some "42", source := [] }


mutual
/-- Every value representable in this model is Firestore-compatible, so the
serialisation fallback loop of `_prepare_document_for_firestore`
(`json.dumps` on non-compatible values) is the identity here and is omitted
from `prepare_document_for_firestore`. -/
theorem isFirestoreCompatible_eq_true : ∀ v : Value, isFirestoreCompatible v = true
  | .str _ => rfl
  | .num _ => rfl
  | .bool _ => rfl
  | .null => rfl
  | .time _ => rfl
  | .list xs => by rw [isFirestoreCompatible, listCompatible_eq_true xs]
  | .dict kvs => by rw [isFirestoreCompatible, dictCompatible_eq_true kvs]

/-- Auxiliary to `isFirestoreCompatible_eq_true`. -/
theorem listCompatible_eq_true : ∀ xs : List Value, listCompatible xs = true
  | [] => rfl
  | x :: xs => by
    rw [listCompatible, isFirestoreCompatible_eq_true x, listCompatible_eq_true xs]
    rfl

/-- Auxiliary to `isFirestoreCompatible_eq_true`. -/
theorem dictCompatible_eq_true : ∀ kvs : List (String × Value), dictCompatible kvs = true
  | [] => rfl
  | kv :: kvs => by
    rw [dictCompatible, isFirestoreCompatible_eq_true kv.2, dictCompatible_eq_true kvs]
    rfl
end

/-! ### Association-map lemmas -/

theorem keysOf_nil {α : Type} : keysOf ([] : List (String × α)) = [] := rfl

theorem keysOf_cons {α : Type} (kv : String × α) (rest : List (String × α)) :
    keysOf (kv :: rest) = kv.1 :: keysOf rest := rfl

theorem lookupKey_setKey_self {α : Type} (m : List (String × α)) (k : String) (v : α) :
    lookupKey (setKey m k v) k = some v := by
  induction m with
  | nil => rw [setKey, lookupKey, if_pos rfl]
  | cons kv rest ih =>
    rw [setKey]
    by_cases h : kv.1 = k
    · rw [if_pos h, lookupKey, if_pos rfl]
    · rw [if_neg h, lookupKey, if_neg h]
      exact ih

theorem lookupKey_setKey_ne {α : Type} (m : List (String × α)) (k k' : String) (v : α)
    (h : k' ≠ k) : lookupKey (setKey m k v) k' = lookupKey m k' := by
  induction m with
  | nil =>
    simp only [setKey, lookupKey]
    rw [if_neg (fun he => h he.symm)]
  | cons kv rest ih =>
    rw [setKey]
    by_cases hk : kv.1 = k
    · rw [if_pos hk, lookupKey, lookupKey, if_neg (fun he => h he.symm), if_neg]
      rw [hk]
      exact fun he => h he.symm
    · rw [if_neg hk, lookupKey, lookupKey]
      by_cases hk' : kv.1 = k'
      · rw [if_pos hk', if_pos hk']
      · rw [if_neg hk', if_neg hk']
        exact ih

theorem mem_keysOf_iff_lookup {α : Type} (m : List (String × α)) (k : String) :
    k ∈ keysOf m ↔ ∃ v, lookupKey m k = some v := by
  induction m with
  | nil => simp [keysOf_nil, lookupKey]
  | cons kv rest ih =>
    rw [keysOf_cons, List.mem_cons, lookupKey]
    by_cases h : kv.1 = k
    · simp [h]
    · rw [if_neg h, ih]
      constructor
      · rintro (he | hv)
        · exact absurd he.symm h
        · exact hv
      · exact fun hv => Or.inr hv

theorem keysOf_setKey_of_mem {α : Type} (m : List (String × α)) (k : String) (v : α)
    (h : k ∈ keysOf m) : keysOf (setKey m k v) = keysOf m := by
  induction m with
  | nil => simp [keysOf_nil] at h
  | cons kv rest ih =>
    rw [setKey]
    by_cases hk : kv.1 = k
    · rw [if_pos hk, keysOf_cons, keysOf_cons, hk]
    · rw [keysOf_cons, List.mem_cons] at h
      rcases h with he | hm
      · exact absurd he.symm hk
      · rw [if_neg hk, keysOf_cons, keysOf_cons, ih hm]

theorem mem_keysOf_setKey_self {α : Type} (m : List (String × α)) (k : String) (v : α) :
    k ∈ keysOf (setKey m k v) := by
  induction m with
  | nil => rw [setKey, keysOf_cons]; exact List.mem_cons_self _ _
  | cons kv rest ih =>
    rw [setKey]
    by_cases hk : kv.1 = k
    · rw [if_pos hk, keysOf_cons]
      exact List.mem_cons_self _ _
    · rw [if_neg hk, keysOf_cons]
      exact List.mem_cons_of_mem _ ih

theorem mem_keysOf_setKey_of_mem {α : Type} (m : List (String × α)) (k k' : String) (v : α)
    (h : k' ∈ keysOf m) : k' ∈ keysOf (setKey m k v) := by
  induction m with
  | nil => simp [keysOf_nil] at h
  | cons kv rest ih =>
    rw [keysOf_cons, List.mem_cons] at h
    rw [setKey]
    by_cases hk : kv.1 = k
    · rw [if_pos hk, keysOf_cons]
      rcases h with he | hm
      · show k' ∈ k :: keysOf rest
        rw [he.trans hk]
        exact List.mem_cons_self _ _
      · exact List.mem_cons_of_mem _ hm
    · rw [if_neg hk, keysOf_cons]
      rcases h with he | hm
      · rw [← he]
        exact List.mem_cons_self _ _
      · exact List.mem_cons_of_mem _ (ih hm)

/-! ### Chunking lemmas -/

theorem chunkList_flatten {α : Type} (bs : ℕ) : (l : List α) → (chunkList bs l).flatten = l
  | [] => by rw [chunkList]; rfl
  | x :: xs => by
    rw [chunkList, List.flatten_cons, chunkList_flatten bs (xs.drop (bs - 1)),
      List.cons_append, List.take_append_drop]
termination_by l => l.length
decreasing_by simp [List.length_drop]; omega

theorem chunkList_eq_single {α : Type} (bs : ℕ) (l : List α) (hne : l ≠ [])
    (hlen : l.length ≤ bs) : chunkList bs l = [l] := by
  match l with
  | [] => exact absurd rfl hne
  | x :: xs =>
    rw [chunkList]
    have h1 : xs.take (bs - 1) = xs := by
      apply List.take_of_length_le
      simp at hlen
      omega
    have h2 : xs.drop (bs - 1) = [] := by
      apply List.drop_eq_nil_of_le
      simp at hlen
      omega
    rw [h1, h2, chunkList]

/-! ### Batched-write lemmas -/

theorem applyChunk_nil (st : Store) (ts : ℕ) : applyChunk st ts [] = st := rfl

theorem applyChunk_cons (st : Store) (ts : ℕ) (d : SrcDoc) (rest : List SrcDoc) :
    applyChunk st ts (d :: rest) =
      applyChunk (setKey st (docKeyOf d) (prepareStored ts d)) ts rest := rfl

theorem mem_keysOf_applyChunk_of_mem (st : Store) (ts : ℕ) (chunk : List SrcDoc)
    (k : String) (h : k ∈ storeKeys st) : k ∈ storeKeys (applyChunk st ts chunk) := by
  induction chunk generalizing st with
  | nil => exact h
  | cons d rest ih =>
    rw [applyChunk_cons]
    exact ih _ (mem_keysOf_setKey_of_mem _ _ _ _ h)

theorem mem_keysOf_applyChunk_self (st : Store) (ts : ℕ) (chunk : List SrcDoc)
    (d : SrcDoc) (h : d ∈ chunk) : docKeyOf d ∈ storeKeys (applyChunk st ts chunk) := by
  induction chunk generalizing st with
  | nil => simp at h
  | cons d' rest ih =>
    rw [applyChunk_cons]
    rcases List.mem_cons.mp h with he | hm
    · subst he
      exact mem_keysOf_applyChunk_of_mem _ _ _ _ (mem_keysOf_setKey_self _ _ _)
    · exact ih _ hm

theorem keysOf_applyChunk_of_subset (st : Store) (ts : ℕ) (chunk : List SrcDoc)
    (h : ∀ d ∈ chunk, docKeyOf d ∈ storeKeys st) :
    storeKeys (applyChunk st ts chunk) = storeKeys st := by
  induction chunk generalizing st with
  | nil => rfl
  | cons d rest ih =>
    rw [applyChunk_cons]
    have hk : storeKeys (setKey st (docKeyOf d) (prepareStored ts d)) = storeKeys st :=
      keysOf_setKey_of_mem _ _ _ (h d (List.mem_cons_self _ _))
    rw [ih _ (fun d' hd' => by rw [hk]; exact h d' (List.mem_cons_of_mem _ hd')), hk]


theorem hasPending_prepareStored (ts : ℕ) (d : SrcDoc) : hasPending (prepareStored ts d) := by
  unfold hasPending prepareStored prepare_document_for_firestore
  rw [lookupKey_setKey_ne _ _ _ _ (by decide), lookupKey_setKey_ne _ _ _ _ (by decide),
    lookupKey_setKey_self]

theorem applyChunk_pending (st : Store) (ts : ℕ) (chunk : List SrcDoc) (k : String)
    (h : (∃ d ∈ chunk, docKeyOf d = k) ∨ ∃ v, lookupKey st k = some v ∧ hasPending v) :
    ∃ v, lookupKey (applyChunk st ts chunk) k = some v ∧ hasPending v := by
  induction chunk generalizing st with
  | nil =>
    rcases h with ⟨d, hd, _⟩ | hv
    · simp at hd
    · exact hv
  | cons d rest ih =>
    rw [applyChunk_cons]
    apply ih
    rcases h with ⟨d', hd', hk⟩ | ⟨v, hv, hp⟩
    · rcases List.mem_cons.mp hd' with he | hm
      · subst he
        right
        exact ⟨prepareStored ts d', by rw [← hk]; exact lookupKey_setKey_self _ _ _,
          hasPending_prepareStored ts d'⟩
      · exact Or.inl ⟨d', hm, hk⟩
    · by_cases hkd : k = docKeyOf d
      · right
        exact ⟨prepareStored ts d, by rw [hkd]; exact lookupKey_setKey_self _ _ _,
          hasPending_prepareStored ts d⟩
      · right
        exact ⟨v, by rw [lookupKey_setKey_ne _ _ _ _ hkd]; exact hv, hp⟩


theorem applyChunks_nil (st : Store) (ts : ℕ) : applyChunks st ts [] = st := rfl

theorem applyChunks_cons (st : Store) (ts : ℕ) (c : List SrcDoc) (cs : List (List SrcDoc)) :
    applyChunks st ts (c :: cs) = applyChunks (applyChunk st ts c) ts cs := rfl

theorem mem_keysOf_applyChunks_of_mem (st : Store) (ts : ℕ) (cs : List (List SrcDoc))
    (k : String) (h : k ∈ storeKeys st) : k ∈ storeKeys (applyChunks st ts cs) := by
  induction cs generalizing st with
  | nil => exact h
  | cons c cs ih =>
    rw [applyChunks_cons]
    exact ih _ (mem_keysOf_applyChunk_of_mem _ _ _ _ h)

theorem mem_keysOf_applyChunks_self (st : Store) (ts : ℕ) (cs : List (List SrcDoc))
    (d : SrcDoc) (h : ∃ c ∈ cs, d ∈ c) : docKeyOf d ∈ storeKeys (applyChunks st ts cs) := by
  induction cs generalizing st with
  | nil => simp at h
  | cons c cs ih =>
    rw [applyChunks_cons]
    rcases h with ⟨c', hc', hd⟩
    rcases List.mem_cons.mp hc' with he | hm
    · subst he
      exact mem_keysOf_applyChunks_of_mem _ _ _ _ (mem_keysOf_applyChunk_self _ _ _ _ hd)
    · exact ih _ ⟨c', hm, hd⟩

theorem keysOf_applyChunks_of_subset (st : Store) (ts : ℕ) (cs : List (List SrcDoc))
    (h : ∀ c ∈ cs, ∀ d ∈ c, docKeyOf d ∈ storeKeys st) :
    storeKeys (applyChunks st ts cs) = storeKeys st := by
  induction cs generalizing st with
  | nil => rfl
  | cons c cs ih =>
    rw [applyChunks_cons]
    have hk : storeKeys (applyChunk st ts c) = storeKeys st :=
      keysOf_applyChunk_of_subset _ _ _ (h c (List.mem_cons_self _ _))
    rw [ih _ (fun c' hc' d hd => by
      rw [hk]
      exact h c' (List.mem_cons_of_mem _ hc') d hd), hk]

theorem applyChunks_pending (st : Store) (ts : ℕ) (cs : List (List SrcDoc)) (k : String)
    (h : (∃ c ∈ cs, ∃ d ∈ c, docKeyOf d = k) ∨ ∃ v, lookupKey st k = some v ∧ hasPending v) :
    ∃ v, lookupKey (applyChunks st ts cs) k = some v ∧ hasPending v := by
  induction cs generalizing st with
  | nil =>
    rcases h with ⟨c, hc, _⟩ | hv
    · simp at hc
    · exact hv
  | cons c cs ih =>
    rw [applyChunks_cons]
    apply ih
    rcases h with ⟨c', hc', d, hd, hk⟩ | hv
    · rcases List.mem_cons.mp hc' with he | hm
      · subst he
        exact Or.inr (applyChunk_pending _ _ _ _ (Or.inl ⟨d, hd, hk⟩))
      · exact Or.inl ⟨c', hm, d, hd, hk⟩
    · exact Or.inr (applyChunk_pending _ _ _ _ (Or.inr hv))

theorem store_fold_noFail (ts : ℕ) :
    ∀ (cs : List (List SrcDoc)) (n : ℕ) (st : Store) (m : ℕ),
      (List.enumFrom n cs).foldl
          (fun acc nc => (applyChunk acc.1 ts nc.2, acc.2 + nc.2.length)) (st, m)
        = (applyChunks st ts cs, m + (cs.map List.length).sum)
  | [], n, st, m => by simp [List.enumFrom, applyChunks_nil]
  | c :: cs, n, st, m => by
    simp only [List.enumFrom, List.foldl_cons, applyChunks_cons, List.map_cons, List.sum_cons]
    rw [store_fold_noFail ts cs (n + 1) (applyChunk st ts c) (m + c.length), Nat.add_assoc]

theorem store_documents_batch_noFail (bs ts : ℕ) (docs : List SrcDoc) (st : Store)
    (hbs : bs ≠ 0) :
    store_documents_batch (fun _ => false) bs ts docs st
      = (applyChunks st ts (chunkList bs docs), docs.length) := by
  unfold store_documents_batch
  rw [if_neg hbs]
  have hfun :
      (fun (acc : Store × ℕ) (nc : ℕ × List SrcDoc) =>
          if (fun _ => false : ℕ → Bool) (nc.1 + 1) then acc
          else (applyChunk acc.1 ts nc.2, acc.2 + nc.2.length))
        = fun acc nc => (applyChunk acc.1 ts nc.2, acc.2 + nc.2.length) := by
    funext acc nc
    simp
  rw [List.enum, hfun, store_fold_noFail ts (chunkList bs docs) 0 st 0]
  have hlen : ((chunkList bs docs).map List.length).sum = docs.length := by
    rw [← List.length_flatten, chunkList_flatten]
  rw [hlen]
  simp

theorem store_documents_batch_single (cf : ℕ → Bool) (bs ts : ℕ) (l : List SrcDoc)
    (st : Store) (hbs : 0 < bs) (hne : l ≠ []) (hlen : l.length ≤ bs) :
    store_documents_batch cf bs ts l st
      = if cf 1 then (st, 0) else (applyChunk st ts l, l.length) := by
  unfold store_documents_batch
  rw [if_neg (by omega : ¬bs = 0), chunkList_eq_single bs l hne hlen]
  simp only [List.enum, List.enumFrom, List.foldl_cons, List.foldl_nil]
  by_cases hcf : cf 1
  · simp [hcf]
  · simp [hcf]

/-! ### Pipeline loop characterisation -/


theorem succUpTo_zero (g : ℕ → Bool) : succUpTo g 0 = 0 := rfl

theorem succUpTo_succ (g : ℕ → Bool) (q : ℕ) :
    succUpTo g (q + 1) = succUpTo g q + (if g q then 0 else 1) := by
  unfold succUpTo
  rw [List.range_succ, List.filter_append, List.length_append]
  by_cases h : g q <;> simp [h]

theorem loopTrace_zero (g : ℕ → Bool) (bs : ℕ) : loopTrace g bs 0 = [] := rfl

theorem loopTrace_succ (g : ℕ → Bool) (bs q : ℕ) :
    loopTrace g bs (q + 1) = loopTrace g bs q ++ callBlock g bs q := by
  unfold loopTrace
  rw [List.range_succ, List.map_append, List.flatten_append]
  simp

/-- Characterisation of `commitStaged` on a nonempty staged list that fits
in one inner Firestore batch (always the case in the pipeline, whose staged
list is bounded by the batch size). -/
theorem commitStaged_char (w : World) (bs ts : ℕ) (s : PipeState) (hbs : 0 < bs)
    (hne : s.staged ≠ []) (hlen : s.staged.length ≤ bs) :
    commitStaged w bs ts s =
      if w.commitFail s.store_calls 1 then
        { s with
          staged := [],
          store_calls := s.store_calls + 1,
          trace := s.trace ++ [.commit s.staged.length 0] }
      else
        { s with
          store := applyChunk s.store ts s.staged,
          staged := [],
          total_committed := s.total_committed + s.staged.length,
          store_calls := s.store_calls + 1,
          batch_number := s.batch_number + 1,
          trace := s.trace ++ [.commit s.staged.length s.staged.length,
            .notify s.staged.length (s.batch_number + 1), .statsRefresh] } := by
  unfold commitStaged
  rw [store_documents_batch_single _ _ _ _ _ hbs hne hlen]
  by_cases hcf : w.commitFail s.store_calls 1
  · rw [if_pos hcf, if_pos hcf]
    simp
  · rw [if_neg hcf, if_neg hcf]
    have hpos : 0 < s.staged.length := List.length_pos.mpr hne
    rw [if_pos hpos]
    simp [List.append_assoc]


theorem pipeInv_init (w : World) (bs : ℕ) (st : Store) : PipeInv w bs 0 (initPipeState st) := by
  refine ⟨?_, ?_, ?_, ?_, ?_⟩ <;> simp [initPipeState, succUpTo_zero, loopTrace_zero]

theorem pipeStep_inv (w : World) (bs ts : ℕ) (hbs : 0 < bs) (k : ℕ) (s : PipeState)
    (d : SrcDoc) (hd : (stageOf w d).isSome) (h : PipeInv w bs k s) :
    PipeInv w bs (k + 1) (pipeStep w bs ts s d) := by
  obtain ⟨h1, h2, h3, h4, h5⟩ := h
  obtain ⟨d', hd'⟩ := Option.isSome_iff_exists.mp hd
  unfold pipeStep
  rw [hd']
  show PipeInv w bs (k + 1)
    (if max 1 bs ≤ (s.staged ++ [d']).length then
      commitStaged w bs ts { s with staged := s.staged ++ [d'] }
    else { s with staged := s.staged ++ [d'] })
  have hmax : max 1 bs = bs := Nat.max_eq_right hbs
  have hmod : k % bs < bs := Nat.mod_lt _ hbs
  by_cases hfull : k % bs + 1 = bs
  · -- the staged list reaches the batch size: a store call happens
    have hlen : (s.staged ++ [d']).length = bs := by
      rw [List.length_append, h1, List.length_singleton, hfull]
    have hcond : max 1 bs ≤ (s.staged ++ [d']).length := by rw [hmax, hlen]
    rw [if_pos hcond]
    have hdiv : k + 1 = bs * (k / bs + 1) := by
      have e1 := Nat.div_add_mod k bs
      rw [Nat.mul_succ]
      omega
    have hdiv1 : (k + 1) / bs = k / bs + 1 := by
      rw [hdiv, Nat.mul_div_cancel_left _ hbs]
    have hmod1 : (k + 1) % bs = 0 := by
      rw [hdiv, Nat.mul_mod_right]
    rw [commitStaged_char w bs ts _ hbs (by simp) (le_of_eq hlen)]
    have hsc : ({ s with staged := s.staged ++ [d'] } : PipeState).store_calls = k / bs := h2
    rw [hsc]
    by_cases hcf : w.commitFail (k / bs) 1
    · rw [if_pos hcf]
      refine ⟨?_, ?_, ?_, ?_, ?_⟩
      · simp [hmod1]
      · simp [hdiv1]
      · simp [hdiv1, succUpTo_succ, hcf, h3]
      · simp [hdiv1, succUpTo_succ, hcf, h4]
      · simp [hdiv1, loopTrace_succ, callBlock, hcf, h5, hlen]
    · rw [if_neg hcf]
      refine ⟨?_, ?_, ?_, ?_, ?_⟩
      · simp [hmod1]
      · simp [hdiv1]
      · simp [hdiv1, succUpTo_succ, hcf, h3]
      · simp [hdiv1, succUpTo_succ, hcf, h4, hlen, Nat.mul_add]
      · simp [hdiv1, loopTrace_succ, callBlock, hcf, h5, hlen, h3]
  · -- the staged list is still short of the batch size: no store call
    have hlt : k % bs + 1 < bs := by omega
    have hcond : ¬ max 1 bs ≤ (s.staged ++ [d']).length := by
      rw [hmax, List.length_append, h1, List.length_singleton]
      omega
    rw [if_neg hcond]
    have hdiv1 : (k + 1) / bs = k / bs := by
      have hk : k + 1 = k % bs + 1 + bs * (k / bs) := by
        have := Nat.div_add_mod k bs
        omega
      rw [hk, Nat.add_mul_div_left _ _ hbs, Nat.div_eq_of_lt hlt, Nat.zero_add]
    have hmod1 : (k + 1) % bs = k % bs + 1 := by
      have hk : k + 1 = k % bs + 1 + bs * (k / bs) := by
        have := Nat.div_add_mod k bs
        omega
      rw [hk, Nat.add_mul_mod_self_left, Nat.mod_eq_of_lt hlt]
    exact ⟨by simp [h1, hmod1], by simp [h2, hdiv1], by simp [h3, hdiv1],
      by simp [h4, hdiv1], by simp [h5, hdiv1]⟩


theorem foldl_pipeStep_inv (w : World) (bs ts : ℕ) (hbs : 0 < bs) :
    ∀ (l : List SrcDoc) (k : ℕ) (s : PipeState),
      (∀ d ∈ l, (stageOf w d).isSome) → PipeInv w bs k s →
      PipeInv w bs (k + l.length) (l.foldl (pipeStep w bs ts) s)
  | [], k, s, _, h => by simpa using h
  | d :: l, k, s, hall, h => by
    rw [List.foldl_cons, List.length_cons]
    have h1 := pipeStep_inv w bs ts hbs k s d (hall d (List.mem_cons_self _ _)) h
    have := foldl_pipeStep_inv w bs ts hbs l (k + 1) (pipeStep w bs ts s d)
      (fun d' hd' => hall d' (List.mem_cons_of_mem _ hd')) h1
    rw [show k + (l.length + 1) = k + 1 + l.length by omega]
    exact this

/-- Full characterisation of the incremental pipeline's committed total and
event trace for a run in which every record stages successfully: writing
`n` for the record count, `q = n / bs` full batches are committed in the
loop and the trailing `n % bs` records are committed at the end, with
notification and statistics events exactly after each nonzero-committed
call. -/
theorem processIncremental_char (w : World) (bs ts : ℕ) (documents : List SrcDoc)
    (st : Store) (hbs : 0 < bs) (hall : ∀ d ∈ documents, (stageOf w d).isSome) :
    (processIncremental w bs ts documents st).total_committed
        = bs * succUpTo (fun i => w.commitFail i 1) (documents.length / bs)
          + (if documents.length % bs = 0 then 0
             else if w.commitFail (documents.length / bs) 1 then 0
             else documents.length % bs) ∧
    (processIncremental w bs ts documents st).trace
        = loopTrace (fun i => w.commitFail i 1) bs (documents.length / bs)
          ++ (if documents.length % bs = 0 then []
              else if w.commitFail (documents.length / bs) 1 then
                [.commit (documents.length % bs) 0]
              else [.commit (documents.length % bs) (documents.length % bs),
                .notify (documents.length % bs)
                  (succUpTo (fun i => w.commitFail i 1) (documents.length / bs) + 1),
                .statsRefresh]) := by
  have hinv := foldl_pipeStep_inv w bs ts hbs documents 0 (initPipeState st) hall
    (pipeInv_init w bs st)
  rw [Nat.zero_add] at hinv
  set s := documents.foldl (pipeStep w bs ts) (initPipeState st) with hs
  obtain ⟨h1, h2, h3, h4, h5⟩ := hinv
  have hfin : processIncremental w bs ts documents st =
      if s.staged.isEmpty then s else commitStaged w bs ts s := rfl
  rw [hfin]
  by_cases hmod : documents.length % bs = 0
  · have hemp : s.staged.isEmpty = true := by
      rw [List.isEmpty_iff, ← List.length_eq_zero, h1, hmod]
    rw [if_pos hemp, if_pos hmod, if_pos hmod]
    exact ⟨by rw [h4, Nat.add_zero], by rw [h5]; simp⟩
  · have hne : s.staged ≠ [] := by
      intro he
      rw [he] at h1
      simp at h1
      omega
    have hemp : ¬ s.staged.isEmpty = true := by
      rw [List.isEmpty_iff]
      exact hne
    rw [if_neg hemp, if_neg hmod, if_neg hmod]
    have hlen : s.staged.length ≤ bs := by
      rw [h1]
      exact le_of_lt (Nat.mod_lt _ hbs)
    rw [commitStaged_char w bs ts s hbs hne hlen, h2]
    by_cases hcf : w.commitFail (documents.length / bs) 1
    · rw [if_pos hcf, if_pos hcf, if_pos hcf]
      exact ⟨by simp [h4], by simp [h5, h1]⟩
    · rw [if_neg hcf, if_neg hcf, if_neg hcf]
      exact ⟨by simp [h4, h1], by simp [h5, h1, h3]⟩

/-! ### Claim theorems -/

/-- C1: for every source record with index name `C` and id `I` the
persisted document key is exactly the string `C_I`; persistence is a
key-addressed set/upsert, so every record's key is present after a run and
re-running `store_documents_batch` on the same records (at any later
timestamp) leaves the set of document keys unchanged — re-processing
overwrites the same destination documents and creates no additional
documents. -/
theorem claim1_doc_key_idempotent_upsert (st : Store) (docs : List SrcDoc)
    (bs ts1 ts2 : ℕ) (hbs : 0 < bs) :
    (∀ d ∈ docs, ∀ c i : String, d.index? = some c → d.id? = some i →
      docKeyOf d = c ++ "_" ++ i) ∧
    (∀ d ∈ docs,
      docKeyOf d ∈ storeKeys (store_documents_batch (fun _ => false) bs ts1 docs st).1) ∧
    storeKeys (store_documents_batch (fun _ => false) bs ts2 docs
        (store_documents_batch (fun _ => false) bs ts1 docs st).1).1
      = storeKeys (store_documents_batch (fun _ => false) bs ts1 docs st).1 := by
  have hbs' : bs ≠ 0 := Nat.pos_iff_ne_zero.mp hbs
  have hchunks : ∀ d ∈ docs, ∃ c ∈ chunkList bs docs, d ∈ c := by
    intro d hd
    apply List.mem_flatten.mp
    rw [chunkList_flatten]
    exact hd
  have hmem1 : ∀ d ∈ docs,
      docKeyOf d ∈ storeKeys (store_documents_batch (fun _ => false) bs ts1 docs st).1 := by
    intro d hd
    rw [store_documents_batch_noFail _ _ _ _ hbs']
    exact mem_keysOf_applyChunks_self _ _ _ _ (hchunks d hd)
  refine ⟨?_, hmem1, ?_⟩
  · intro d _ c i hc hi
    unfold docKeyOf
    rw [hc, hi]
    rfl
  · rw [store_documents_batch_noFail bs ts2 docs _ hbs']
    apply keysOf_applyChunks_of_subset
    intro c hc d hd
    apply hmem1 d
    rw [← chunkList_flatten bs docs]
    exact List.mem_flatten.mpr ⟨c, hc, hd⟩

/-- Witness for C1 at a concrete record, store and batch size. -/
theorem claim1_witness :
    docKeyOf dOk = "camera" ++ "_" ++ "42" ∧
    docKeyOf dOk ∈ storeKeys (store_documents_batch (fun _ => false) 50 0 [dOk] []).1 ∧
    storeKeys (store_documents_batch (fun _ => false) 50 1 [dOk]
        (store_documents_batch (fun _ => false) 50 0 [dOk] []).1).1
      = storeKeys (store_documents_batch (fun _ => false) 50 0 [dOk] []).1 := by
  obtain ⟨h1, h2, h3⟩ := claim1_doc_key_idempotent_upsert [] [dOk] 50 0 1 (by decide)
  exact ⟨h1 dOk (List.mem_cons_self _ _) "camera" "42" rfl rfl,
    h2 dOk (List.mem_cons_self _ _), h3⟩

/-- C7, amended: every document is written with status `"Pending"`
(capitalised) on EVERY persistence, first or repeated: after any fully
successful `store_documents_batch` run, the destination document of each
processed record has `status = "Pending"`, regardless of what the store
held at that key before.  Hence re-processing resets the stored status. -/
theorem claim7_amended_status_reset (st : Store) (docs : List SrcDoc) (bs ts : ℕ)
    (hbs : 0 < bs) (d : SrcDoc) (hd : d ∈ docs) :
    ∃ fs, lookupKey (store_documents_batch (fun _ => false) bs ts docs st).1 (docKeyOf d)
        = some fs ∧ lookupKey fs "status" = some (Value.str "Pending") := by
  have hbs' : bs ≠ 0 := Nat.pos_iff_ne_zero.mp hbs
  rw [store_documents_batch_noFail _ _ _ _ hbs']
  obtain ⟨c, hc, hdc⟩ : ∃ c ∈ chunkList bs docs, d ∈ c := by
    apply List.mem_flatten.mp
    rw [chunkList_flatten]
    exact hd
  exact applyChunks_pending st ts (chunkList bs docs) (docKeyOf d)
    (Or.inl ⟨c, hc, d, hdc, rfl⟩)

/-- Witness for the amended C7 at a concrete record and prior store. -/
theorem claim7_witness :
    ∃ fs, lookupKey (store_documents_batch (fun _ => false) 50 0
        [{ index? := some "events", id? := some "7", source := [] }]
        [("events_7", [("status", Value.str "accepted")])]).1
        (docKeyOf { index? := some "events", id? := some "7", source := [] })
      = some fs ∧ lookupKey fs "status" = some (Value.str "Pending") :=
  claim7_amended_status_reset [("events_7", [("status", Value.str "accepted")])]
    [{ index? := some "events", id? := some "7", source := [] }] 50 0 (by decide)
    _ (List.mem_cons_self _ _)

/-- C7 counterexample: a destination document whose status an external
actor set to `"accepted"` is overwritten back to `"Pending"` when the
pipeline re-processes the same record — the pipeline does change the
stored status field on later persistence, and the stamped value is
`"Pending"`, not `"pending"`. -/
theorem claim7_counterexample :
    Option.map (fun fs => lookupKey fs "status")
        (lookupKey (store_documents_batch (fun _ => false) 50 0
            [{ index? := some "events", id? := some "7", source := [] }]
            [("events_7", [("status", Value.str "accepted")])]).1 "events_7")
      = some (some (Value.str "Pending")) ∧
    Option.map (fun fs => lookupKey fs "status")
        (lookupKey [("events_7", [("status", Value.str "accepted")])] "events_7")
      = some (some (Value.str "accepted")) ∧
    Value.str "Pending" ≠ Value.str "accepted" ∧
    Value.str "Pending" ≠ Value.str "pending" := by
  have h1 : (store_documents_batch (fun _ => false) 50 0
      [{ index? := some "events", id? := some "7", source := [] }]
      [("events_7", [("status", Value.str "accepted")])]).1
    = applyChunks [("events_7", [("status", Value.str "accepted")])] 0
        (chunkList 50 [{ index? := some "events", id? := some "7", source := [] }]) := by
    rw [store_documents_batch_noFail _ _ _ _ (by decide)]
  have hc : chunkList 50 [({ index? := some "events", id? := some "7", source := [] } : SrcDoc)]
      = [[{ index? := some "events", id? := some "7", source := [] }]] :=
    chunkList_eq_single _ _ (by simp) (by simp)
  refine ⟨?_, rfl, ?_, ?_⟩
  · rw [h1, hc]
    rfl
  · intro h
    rw [Value.str.injEq] at h
    exact absurd h (by decide)
  · intro h
    rw [Value.str.injEq] at h
    exact absurd h (by decide)

/-- C3, amended: for a record with resolvable identity, any enrichment
failure that the code reports through a value — an HTTP error status or
empty body on fetch, a failed BBOX parse, a caught drawing error, or a
failed upload — never prevents staging: the record reaches the commit step
with its identity intact and its fields unchanged except for a possibly
added `image_url`.  (A RAISED exception in the per-record block — e.g. a
network timeout — skips the record instead; see the counterexample.) -/
theorem claim3_amended_enrichment_decoupled (w : World) (d : SrcDoc) (c i : String)
    (hc : d.index? = some c) (hcne : c ≠ "") (hi : d.id? = some i) (hine : i ≠ "")
    (hfetch : ∀ alt : Bool, w.fetch c i alt ≠ FetchRes.raises)
    (hip : ∃ o, ipCheck (lookupKey d.source "image_position") = Except.ok o) :
    ∃ d', stageOf w d = some d' ∧ d'.index? = d.index? ∧ d'.id? = d.id? ∧
      (d'.source = d.source ∨
        ∃ url, d'.source = setKey d.source "image_url" (Value.str url)) := by
  obtain ⟨o, ho⟩ := hip
  obtain ⟨st1, content1, hfr⟩ : ∃ s ct, fetchWithRetry w c i = some (s, ct) := by
    unfold fetchWithRetry
    rcases hf : w.fetch c i false with _ | ⟨st, content⟩
    · exact absurd hf (hfetch false)
    · by_cases h404 : st = 404
      · subst h404
        rcases hf2 : w.fetch c i true with _ | ⟨st2, c2⟩
        · exact absurd hf2 (hfetch true)
        · exact ⟨st2, c2, rfl⟩
      · exact ⟨st, content, by simp only [if_neg h404]⟩
  unfold stageOf
  rw [hc, hi]
  simp only [Option.getD_some]
  rw [if_neg (by push_neg; exact ⟨hcne, hine⟩), hfr]
  by_cases h200 : st1 = 200 ∧ content1 ≠ []
  · simp only [if_pos h200, ho]
    rcases hcu : chosenUrl (process_image_with_bbox w content1 o (w.destPath c i)).2 with
      _ | url
    · simp only [hcu]
      exact ⟨d, rfl, hc, hi, Or.inl rfl⟩
    · simp only [hcu]
      exact ⟨_, rfl, rfl, rfl, Or.inr ⟨url, rfl⟩⟩
  · simp only [if_neg h200]
    exact ⟨d, rfl, hc, hi, Or.inl rfl⟩

/-- Witness for the amended C3: a record whose upload fails (empty upload
result) is still staged, unchanged. -/
theorem claim3_witness :
    ∃ d', stageOf wOk dOk = some d' ∧ d'.index? = dOk.index? ∧ d'.id? = dOk.id? ∧
      (d'.source = dOk.source ∨
        ∃ url, d'.source = setKey dOk.source "image_url" (Value.str url)) :=
  claim3_amended_enrichment_decoupled wOk dOk "camera" "42" rfl (by decide) rfl (by decide)
    (by decide : ∀ alt : Bool, wOk.fetch "camera" "42" alt ≠ FetchRes.raises) ⟨none, rfl⟩

/-- C3 counterexample: a record with resolvable identity whose image fetch
RAISES (a `requests` exception, e.g. a timeout) is silently skipped by the
per-record handler: it is never staged, no commit occurs, and nothing is
persisted — its enrichment failure did prevent its persistence. -/
theorem claim3_counterexample :
    stageOf wRaise dOk = none ∧
    (processIncremental wRaise 50 0 [dOk] []).trace = [] ∧
    (processIncremental wRaise 50 0 [dOk] []).total_committed = 0 ∧
    (processIncremental wRaise 50 0 [dOk] []).store = [] :=
  ⟨rfl, rfl, rfl, rfl⟩

/-- C2: with 120 records of resolvable identity (all staging successfully)
and batch size 50, the incremental-commit pipeline performs exactly 3
commit operations with staged sizes 50, 50, 20 in that order; exactly 3
notification fanouts and 3 statistics refreshes occur, each strictly after
its corresponding commit, and each commit reports its full nonzero count
(50, 50, 20), which is what gates the fanout and refresh. -/
theorem claim2_batches_120_50 (w : World) (docs : List SrcDoc) (ts : ℕ) (st : Store)
    (hlen : docs.length = 120)
    (hall : ∀ d ∈ docs, (stageOf w d).isSome)
    (hok : ∀ n, w.commitFail n 1 = false) :
    (processIncremental w 50 ts docs st).trace
      = [.commit 50 50, .notify 50 1, .statsRefresh,
         .commit 50 50, .notify 50 2, .statsRefresh,
         .commit 20 20, .notify 20 3, .statsRefresh] ∧
    (processIncremental w 50 ts docs st).total_committed = 120 := by
  obtain ⟨htot, htr⟩ := processIncremental_char w 50 ts docs st (by decide) hall
  rw [hlen] at htot htr
  have hq : (120 : ℕ) / 50 = 2 := by decide
  have hr : (120 : ℕ) % 50 = 20 := by decide
  rw [hq, hr] at htot htr
  have hrange : List.range 2 = [0, 1] := rfl
  have hs0 : succUpTo (fun _ : ℕ => false) 0 = 0 := by decide
  have hs1 : succUpTo (fun _ : ℕ => false) 1 = 1 := by decide
  have hs2 : succUpTo (fun _ : ℕ => false) 2 = 2 := by decide
  constructor
  · rw [htr]
    unfold loopTrace
    rw [hrange]
    simp [callBlock, hok, hs0, hs1, hs2]
  · rw [htot]
    norm_num [hok, hs2]

/-- Witness for C2: 120 copies of a concrete record in a benign world. -/
theorem claim2_witness :
    (processIncremental wOk 50 0 (List.replicate 120 dOk) []).trace
      = [.commit 50 50, .notify 50 1, .statsRefresh,
         .commit 50 50, .notify 50 2, .statsRefresh,
         .commit 20 20, .notify 20 3, .statsRefresh] ∧
    (processIncremental wOk 50 0 (List.replicate 120 dOk) []).total_committed = 120 :=
  claim2_batches_120_50 wOk (List.replicate 120 dOk) 0 [] (by simp)
    (fun d hd => by rw [List.eq_of_mem_replicate hd]; rfl) (fun n => rfl)

/-- C4: in a three-staged-batch run (batch size `bs`, `2*bs < n < 3*bs`
records, all staging successfully) where the second batch's persistence
throws and the other two succeed, the run's total committed count is batch
1's size plus batch 3's size (`bs + (n - 2*bs)`), the second commit
reports 0 and is followed by no notification or statistics refresh, and
batch 2's records are never committed again within the run (the trace
holds exactly three commits). -/
theorem claim4_second_batch_failure (w : World) (docs : List SrcDoc) (ts : ℕ) (st : Store)
    (bs : ℕ) (hbs : 0 < bs)
    (hall : ∀ d ∈ docs, (stageOf w d).isSome)
    (hn1 : 2 * bs < docs.length) (hn2 : docs.length < 3 * bs)
    (hf0 : w.commitFail 0 1 = false) (hf1 : w.commitFail 1 1 = true)
    (hf2 : w.commitFail 2 1 = false) :
    (processIncremental w bs ts docs st).total_committed = bs + (docs.length - 2 * bs) ∧
    (processIncremental w bs ts docs st).trace
      = [.commit bs bs, .notify bs 1, .statsRefresh,
         .commit bs 0,
         .commit (docs.length - 2 * bs) (docs.length - 2 * bs),
         .notify (docs.length - 2 * bs) 2, .statsRefresh] := by
  obtain ⟨htot, htr⟩ := processIncremental_char w bs ts docs st hbs hall
  have hq : docs.length / bs = 2 := by
    apply Nat.div_eq_of_lt_le
    · omega
    · omega
  have hr : docs.length % bs = docs.length - 2 * bs := by
    have := Nat.div_add_mod docs.length bs
    rw [hq] at this
    omega
  rw [hq, hr] at htot htr
  have hrne : ¬ docs.length - 2 * bs = 0 := by omega
  have hrange : List.range 2 = [0, 1] := rfl
  have hsucc2 : succUpTo (fun n => w.commitFail n 1) 2 = 1 := by
    unfold succUpTo
    rw [hrange]
    simp [hf0, hf1]
  have hsucc0 : succUpTo (fun n => w.commitFail n 1) 0 = 0 := rfl
  constructor
  · rw [htot, hsucc2, if_neg hrne, if_neg (by simp [hf2] : ¬w.commitFail 2 1 = true)]
    omega
  · rw [htr]
    unfold loopTrace
    rw [hrange]
    simp [callBlock, hf0, hf1, hf2, hsucc0, hsucc2, hrne]

/-- Witness for C4: 120 concrete records, batch size 50, second commit
raising; committed total 70 and the seven-event trace. -/
theorem claim4_witness :
    (processIncremental wFail2 50 0 (List.replicate 120 dOk) []).total_committed
      = 50 + (120 - 2 * 50) ∧
    (processIncremental wFail2 50 0 (List.replicate 120 dOk) []).trace
      = [.commit 50 50, .notify 50 1, .statsRefresh,
         .commit 50 0,
         .commit (120 - 2 * 50) (120 - 2 * 50), .notify (120 - 2 * 50) 2, .statsRefresh] := by
  have h := claim4_second_batch_failure wFail2 (List.replicate 120 dOk) 0 [] 50 (by decide)
    (fun d hd => by rw [List.eq_of_mem_replicate hd]; rfl)
    (by simp) (by simp) rfl rfl rfl
  simpa using h

/-- C8: if obtaining the image bearer token fails (the
`_fetch_image_bearer_token` call raises) on a run that did find documents,
the caught exception aborts all processing: the pipeline is never entered
— no record is enriched, no commit, notification or statistics event
occurs, the destination store is untouched — the run returns a stored
count of 0, and it is surfaced as a run failure: `total_failed` is
incremented and `last_error` is set, rather than the run counting as a
normal success. -/
theorem claim8_token_failure_aborts_run (w : World) (cfgBs ts : ℕ) (docs : List SrcDoc)
    (st : Store) (stats0 : RunStats) (hne : docs ≠ []) :
    process_recent_data w (Except.error ()) cfgBs ts docs st stats0
      = (0, initPipeState st,
         { total_processed := stats0.total_processed + 1,
           total_successful := stats0.total_successful,
           total_failed := stats0.total_failed + 1,
           last_error := some "Failed to store documents",
           has_last_run := true }) := by
  unfold process_recent_data
  rw [if_neg (by rw [List.isEmpty_iff]; exact hne)]
  rfl

/-- Witness for C8 at a concrete run. -/
theorem claim8_witness :
    process_recent_data wOk (Except.error ()) 50 0 [dOk] []
        { total_processed := 3, total_successful := 2, total_failed := 1,
          last_error := none, has_last_run := true }
      = (0, initPipeState [],
         { total_processed := 4, total_successful := 2, total_failed := 2,
           last_error := some "Failed to store documents", has_last_run := true }) :=
  claim8_token_failure_aborts_run wOk 50 0 [dOk] []
    { total_processed := 3, total_successful := 2, total_failed := 1,
      last_error := none, has_last_run := true } (List.cons_ne_nil _ _)

/-- C9: when the set of online subscriber tokens is empty,
`send_notification_to_responders` returns the zero-count dictionary
`{"success_count": 0, "failure_count": 0, "responses": []}` — a normal,
non-error result (no `error` key) — and no send is attempted (the list of
attempted tokens is empty). -/
theorem claim9_zero_online_tokens (send : String → Except String String)
    (responders : List FsDoc) (where_equal : List (String × Value)) (batch_size : ℕ)
    (hzero : get_responder_tokens responders where_equal none true = []) :
    send_notification_to_responders send responders where_equal true batch_size
      = ({ success_count := 0, failure_count := 0, has_responses := true, error := none },
         []) := by
  unfold send_notification_to_responders
  rw [hzero]
  rfl

/-- Witness for C9: one offline responder with a valid token — no online
tokens, so the zero-count result and no send attempts. -/
theorem claim9_witness :
    send_notification_to_responders (fun t => Except.ok t)
        [[("status", Value.str "offline"), ("notification_token", Value.str "tok1")]]
        [] true 500
      = ({ success_count := 0, failure_count := 0, has_responses := true, error := none },
         []) :=
  claim9_zero_online_tokens (fun t => Except.ok t)
    [[("status", Value.str "offline"), ("notification_token", Value.str "tok1")]]
    [] 500 rfl

/-- C10 (code bug): a scanned document whose status string is `"total"`
hits the `if status in stats:` membership test — whose key set includes
the `total` counter itself — and increments `total` a second time instead
of folding into `pending` as the adjacent `# Handle unknown statuses`
comment intends: the snapshot for that single document is
`total = 2, pending = accepted = rejected = done = 0`, breaking
`total = pending + accepted + rejected + done`; a genuinely unknown status
like `"weird"` folds into `pending` as claimed. -/
theorem claim10_status_total_double_count :
    calculate_event_statistics [[("status", Value.str "total")]]
        = some { total := 2, pending := 0, accepted := 0, rejected := 0, done := 0 } ∧
    (2 : ℕ) ≠ 0 + 0 + 0 + 0 ∧
    calculate_event_statistics [[("status", Value.str "weird")]]
        = some { total := 1, pending := 1, accepted := 0, rejected := 0, done := 0 } :=
  ⟨by decide, by decide, by decide⟩

/-- C5: `"BBOX (10,10,50,50)"` parses to the rectangle `(10, 10, 50, 50)`;
`"garbage"` (no annotation marker match) and `"BBOX (1,2,3)"` (wrong
arity) parse to no annotation; and for EVERY annotation string that parses
to no annotation, the bytes handed to the upload by
`process_image_with_bbox` are the original image bytes unchanged. -/
theorem claim5_bbox_parsing :
    parse_bbox_coordinates "BBOX (10,10,50,50)" = some (10, 10, 50, 50) ∧
    parse_bbox_coordinates "garbage" = none ∧
    parse_bbox_coordinates "BBOX (1,2,3)" = none ∧
    (∀ s : String, parse_bbox_coordinates s = none →
      ∀ (w : World) (image_bytes : ByteStr) (destination_path : String),
        (process_image_with_bbox w image_bytes (some s) destination_path).1
          = image_bytes) := by
  refine ⟨?_, by decide, by decide, ?_⟩
  · have h : parse_bbox_coordinates "BBOX (10,10,50,50)" =
        some ((1 : ℚ) * ((digitsToNat ['1', '0'] : ℚ) + (digitsToNat [] : ℚ) / 10 ^ (0 : ℕ)),
          (1 : ℚ) * ((digitsToNat ['1', '0'] : ℚ) + (digitsToNat [] : ℚ) / 10 ^ (0 : ℕ)),
          (1 : ℚ) * ((digitsToNat ['5', '0'] : ℚ) + (digitsToNat [] : ℚ) / 10 ^ (0 : ℕ)),
          (1 : ℚ) * ((digitsToNat ['5', '0'] : ℚ) + (digitsToNat [] : ℚ) / 10 ^ (0 : ℕ))) :=
      rfl
    rw [h]
    have c1 : '1'.toNat - '0'.toNat = 1 := by decide
    have c5 : '5'.toNat - '0'.toNat = 5 := by decide
    norm_num [digitsToNat, c1, c5]
  · intro s hs w image_bytes destination_path
    show (if s ≠ "" ∧ containsSeq "BBOX".data (s.data.map asciiUpper) then
        match parse_bbox_coordinates s with
        | some bbox_coords => draw_rectangle_on_image w image_bytes bbox_coords
        | none => image_bytes
      else image_bytes) = image_bytes
    rw [hs]
    split
    · rfl
    · rfl

/-- Witness for C5's universally quantified part at a concrete malformed
string, world and image. -/
theorem claim5_witness :
    parse_bbox_coordinates "BBOX (1,2,3)" = none ∧
    (process_image_with_bbox wOk [9, 9] (some "BBOX (1,2,3)") "p").1 = [9, 9] :=
  ⟨claim5_bbox_parsing.2.2.1,
    claim5_bbox_parsing.2.2.2 "BBOX (1,2,3)" claim5_bbox_parsing.2.2.1 wOk [9, 9] "p"⟩

/-- C6 counterexample: the box `(5,5,5,5)` on an 8×8 image is first
clamped to `(5,5,5,5)` and then expanded by the minimum 10-unit extent to
`(5,5,15,15)` — whose `x2 = y2 = 15` EXCEEDS the image dimension 8, so
the drawn rectangle is not within `[0, width] × [0, height]`. -/
theorem claim6_counterexample :
    adjustCoords (5, 5, 5, 5) 8 8 = (5, 5, 15, 15) ∧ ¬ ((15 : ℚ) ≤ 8) := by
  constructor
  · norm_num [adjustCoords]
  · norm_num

/-- C6, amended: for every parsed box and image dimensions `(w, h)` with
`w, h ≥ 0`, the drawn rectangle's `x1`/`y1` are clamped into
`[0,w]`/`[0,h]`; its `x2`/`y2` are nonnegative and exceed the image
dimension only through the minimum-extent fix, by at most 10 units beyond
`x1`/`y1` (i.e. `x2 ≤ max w (x1+10)`); both final extents are strictly
positive; an axis whose CLAMPED extent is zero or negative gets exactly a
10-unit extent; and `(5,5,5,5)` becomes exactly `(5,5,15,15)` on any
image at least 5 units wide and tall. -/
theorem claim6_amended_clamp_min_extent :
    (∀ x1 y1 x2 y2 w h : ℚ, 0 ≤ w → 0 ≤ h →
      (0 ≤ (adjustCoords (x1, y1, x2, y2) w h).1 ∧ (adjustCoords (x1, y1, x2, y2) w h).1 ≤ w) ∧
      (0 ≤ (adjustCoords (x1, y1, x2, y2) w h).2.1 ∧
        (adjustCoords (x1, y1, x2, y2) w h).2.1 ≤ h) ∧
      (0 ≤ (adjustCoords (x1, y1, x2, y2) w h).2.2.1 ∧
        (adjustCoords (x1, y1, x2, y2) w h).2.2.1
          ≤ max w ((adjustCoords (x1, y1, x2, y2) w h).1 + 10)) ∧
      (0 ≤ (adjustCoords (x1, y1, x2, y2) w h).2.2.2 ∧
        (adjustCoords (x1, y1, x2, y2) w h).2.2.2
          ≤ max h ((adjustCoords (x1, y1, x2, y2) w h).2.1 + 10)) ∧
      (adjustCoords (x1, y1, x2, y2) w h).1 < (adjustCoords (x1, y1, x2, y2) w h).2.2.1 ∧
      (adjustCoords (x1, y1, x2, y2) w h).2.1 < (adjustCoords (x1, y1, x2, y2) w h).2.2.2 ∧
      (max 0 (min x2 w) ≤ max 0 (min x1 w) →
        (adjustCoords (x1, y1, x2, y2) w h).2.2.1
          = (adjustCoords (x1, y1, x2, y2) w h).1 + 10) ∧
      (max 0 (min y2 h) ≤ max 0 (min y1 h) →
        (adjustCoords (x1, y1, x2, y2) w h).2.2.2
          = (adjustCoords (x1, y1, x2, y2) w h).2.1 + 10)) ∧
    (∀ w h : ℚ, 5 ≤ w → 5 ≤ h → adjustCoords (5, 5, 5, 5) w h = (5, 5, 15, 15)) := by
  constructor
  · intro x1 y1 x2 y2 w h hw hh
    have h0x1 : (0 : ℚ) ≤ max 0 (min x1 w) := le_max_left _ _
    have hwx1 : max 0 (min x1 w) ≤ w := max_le hw (min_le_right _ _)
    have h0x2 : (0 : ℚ) ≤ max 0 (min x2 w) := le_max_left _ _
    have hwx2 : max 0 (min x2 w) ≤ w := max_le hw (min_le_right _ _)
    have h0y1 : (0 : ℚ) ≤ max 0 (min y1 h) := le_max_left _ _
    have hhy1 : max 0 (min y1 h) ≤ h := max_le hh (min_le_right _ _)
    have h0y2 : (0 : ℚ) ≤ max 0 (min y2 h) := le_max_left _ _
    have hhy2 : max 0 (min y2 h) ≤ h := max_le hh (min_le_right _ _)
    by_cases hx : max 0 (min x2 w) ≤ max 0 (min x1 w) <;>
      by_cases hy : max 0 (min y2 h) ≤ max 0 (min y1 h) <;>
      simp only [adjustCoords, if_pos, if_neg, hx, hy, if_true, if_false,
        ite_true, ite_false]
    · exact ⟨⟨h0x1, hwx1⟩, ⟨h0y1, hhy1⟩, ⟨by linarith, le_max_right _ _⟩,
        ⟨by linarith, le_max_right _ _⟩, by linarith, by linarith,
        fun _ => trivial, fun _ => trivial⟩
    · exact ⟨⟨h0x1, hwx1⟩, ⟨h0y1, hhy1⟩, ⟨by linarith, le_max_right _ _⟩,
        ⟨h0y2, le_trans hhy2 (le_max_left _ _)⟩, by linarith, not_le.mp hy,
        fun _ => trivial, fun hcon => hcon.elim⟩
    · exact ⟨⟨h0x1, hwx1⟩, ⟨h0y1, hhy1⟩, ⟨h0x2, le_trans hwx2 (le_max_left _ _)⟩,
        ⟨by linarith, le_max_right _ _⟩, not_le.mp hx, by linarith,
        fun hcon => hcon.elim, fun _ => trivial⟩
    · exact ⟨⟨h0x1, hwx1⟩, ⟨h0y1, hhy1⟩, ⟨h0x2, le_trans hwx2 (le_max_left _ _)⟩,
        ⟨h0y2, le_trans hhy2 (le_max_left _ _)⟩, not_le.mp hx, not_le.mp hy,
        fun hcon => hcon.elim, fun hcon => hcon.elim⟩
  · intro w h hw hh
    unfold adjustCoords
    have hxw : min (5 : ℚ) w = 5 := min_eq_left hw
    have hyh : min (5 : ℚ) h = 5 := min_eq_left hh
    simp only [hxw, hyh]
    norm_num

/-- Witness for the amended C6 at a concrete box and image. -/
theorem claim6_witness :
    (0 ≤ (adjustCoords (20, -3, 2, 9) 8 8).1 ∧ (adjustCoords (20, -3, 2, 9) 8 8).1 ≤ 8) ∧
    adjustCoords (5, 5, 5, 5) 9 9 = (5, 5, 15, 15) :=
  ⟨((claim6_amended_clamp_min_extent.1 20 (-3) 2 9 8 8 (by norm_num) (by norm_num)).1),
    claim6_amended_clamp_min_extent.2 9 9 (by norm_num) (by norm_num)⟩

end Ipsotek
